import Mathlib

/-!
Verification development for the blahrs signed-envelope core (src/types.rs).

The Rust source is shallowly embedded below: machine integers become Nat
with explicit bounds or reductions modulo powers of two, fallible code
returns Except, serde_json values become an explicit Json tree whose
objects are ordered lists of key/value pairs (serde emits fields in a
deterministic order, which is what the canonicalization claims are about),
and the external ed25519_dalek primitives are abstracted as a Scheme of
functions, with the correctness facts of the real primitives stated as
explicit hypotheses where a claim needs them.
-/

namespace Blahrs

/-- Constant TIMESTAMP_TOLERENCE from src/types.rs line 18: 90 seconds. -/
def TIMESTAMP_TOLERENCE : Nat := 90

/-- Model of serde_json values. Objects carry their fields as an ordered
list of key/value pairs, since field emission order is significant for
canonical signing bytes. -/
inductive Json where
  | str : String → Json
  | num : Nat → Json
  | obj : List (String × Json) → Json
  | arr : List Json → Json

/-- Keys of a Json object, in emission order; empty for non-objects. -/
def Json.keys : Json → List String
  | .obj kvs => kvs.map Prod.fst
  | _ => []

/-- UserKey from src/types.rs line 22: a public key as its 32 raw bytes
(PUBLIC_KEY_LENGTH = 32). Bytes are modelled as a list of Nat; claims
that need the fixed length state it as a hypothesis. -/
structure UserKey where
  bytes : List Nat
deriving DecidableEq

/-- Lowercase hex digit characters, as used by the hex crate encoder. -/
def hexAlphabet : List Char := "0123456789abcdef".toList

/-- One lowercase hex digit for a value below 16. -/
def hexDigitChar (n : Nat) : Char := hexAlphabet.getD n '0'

/-- Model of hex::encode_to_slice for one byte: high nibble then low
nibble, lowercase. -/
def hexByte (b : Nat) : List Char := [hexDigitChar (b / 16 % 16), hexDigitChar (b % 16)]

/-- Model of hex::encode_to_slice over a byte string (lowercase hex). -/
def hexEncode (bs : List Nat) : String := ⟨bs.flatMap hexByte⟩

/-- Display implementation of UserKey from src/types.rs lines 24-30:
hex-encode the 32 bytes into a 64-char buffer and write it. -/
def UserKey.display (k : UserKey) : String := hexEncode k.bytes

/-- Bitflags ServerPermission named constants from src/types.rs
lines 156-160: CREATE_ROOM = 1 <<< 0 and ALL = complement of 0 (all 64
bits set). Modelled as the list of named constants the declaration
introduces, with their u64 values. -/
def ServerPermission.namedConsts : List (String × Nat) :=
  [("CREATE_ROOM", 1), ("ALL", 2 ^ 64 - 1)]

/-- Bitflags MemberPermission named constants from src/types.rs
lines 162-168. -/
def MemberPermission.namedConsts : List (String × Nat) :=
  [("POST_CHAT", 1), ("ADD_MEMBER", 2), ("ALL", 2 ^ 64 - 1)]

/-- Bitflags RoomAttrs named constants from src/types.rs lines 170-175:
only PUBLIC_READABLE = 1 <<< 0 is named. -/
def RoomAttrs.namedConsts : List (String × Nat) :=
  [("PUBLIC_READABLE", 1)]

/-- The unnamed catch-all constant of RoomAttrs (src/types.rs line 174,
written as an underscore constant equal to the complement of 0): it makes
every one of the 64 bits a known bit but introduces no name. -/
def RoomAttrs.unnamedConstBits : Nat := 2 ^ 64 - 1

/-- Reinterpretation of a u64 bit pattern as an i64 (two's complement),
as in the to_sql impls generated by impl_u64_flag (src/types.rs
lines 207-212): the expression bits() as i64. -/
def bitsAsI64 (b : Nat) : Int := if b < 2 ^ 63 then (b : Int) else (b : Int) - 2 ^ 64

/-- Reinterpretation of an i64 as a u64 bit pattern (two's complement),
as in the column_result impls generated by impl_u64_flag (src/types.rs
lines 214-219): the expression v as u64 followed by from_bits_retain,
which retains every bit. -/
def i64AsBits (v : Int) : Nat := (v % 2 ^ 64).toNat

/-- ToSql for ServerPermission (impl_u64_flag instantiation,
src/types.rs line 224). -/
def ServerPermission.to_sql (bits : Nat) : Int := bitsAsI64 bits

/-- FromSql for ServerPermission (impl_u64_flag instantiation). -/
def ServerPermission.column_result (v : Int) : Nat := i64AsBits v

/-- ToSql for MemberPermission (impl_u64_flag instantiation). -/
def MemberPermission.to_sql (bits : Nat) : Int := bitsAsI64 bits

/-- FromSql for MemberPermission (impl_u64_flag instantiation). -/
def MemberPermission.column_result (v : Int) : Nat := i64AsBits v

/-- ToSql for RoomAttrs (impl_u64_flag instantiation). -/
def RoomAttrs.to_sql (bits : Nat) : Int := bitsAsI64 bits

/-- FromSql for RoomAttrs (impl_u64_flag instantiation). -/
def RoomAttrs.column_result (v : Int) : Nat := i64AsBits v

/-- Lexicographic strict comparison on byte strings, mirroring Rust's
PartialOrd for byte arrays as used in w[0].user.0 < w[1].user.0
(src/types.rs line 122); both sides have length 32 there, so the
shorter-is-smaller cases are never exercised but are Rust's slice rule. -/
def bytesLt : List Nat → List Nat → Bool
  | [], [] => false
  | [], _ :: _ => true
  | _ :: _, [] => false
  | a :: as, b :: bs => a < b || (a == b && bytesLt as bs)

/-- RoomMember from src/types.rs lines 130-134: permission bits and user
key. The permission is a MemberPermission u64 mask. -/
structure RoomMember where
  permission : Nat
  user : UserKey

/-- RoomMemberList from src/types.rs line 107: a vector of RoomMember. -/
structure RoomMemberList where
  members : List RoomMember

/-- The adjacent-pair scan members.windows(2).all of TryFrom for
RoomMemberList (src/types.rs line 122): every adjacent pair is strictly
increasing by user key bytes. -/
def sortedStrict : List RoomMember → Bool
  | a :: b :: rest => bytesLt a.user.bytes b.user.bytes && sortedStrict (b :: rest)
  | _ => true

/-- TryFrom for Vec of RoomMember to RoomMemberList, src/types.rs
lines 118-128: accept the vector unchanged when the adjacent-pair scan
passes, otherwise fail with the fixed error string. -/
def RoomMemberList.try_from (members : List RoomMember) : Except String RoomMemberList :=
  if sortedStrict members then .ok ⟨members⟩ else .error "unsorted or duplicated users"

/-- Model of a rand_core RngCore source: an infinite stream of values and
a current position. -/
structure Rng where
  stream : Nat → Nat
  pos : Nat

/-- RngCore next_u32: draw the next stream value reduced to 32 bits and
advance the position. -/
def Rng.next_u32 (r : Rng) : Nat × Rng :=
  (r.stream r.pos % 2 ^ 32, ⟨r.stream, r.pos + 1⟩)

/-- Abstraction of the ed25519_dalek primitives used by src/types.rs.
SigningKey is abstracted to a Nat seed; derivePub models
key.verifying_key().to_bytes(); trySign models key.try_sign over the
canonical Json value (to_vec output is a deterministic function of the
value, so the Json value itself stands for the canonical bytes);
validKey models whether VerifyingKey::from_bytes succeeds; verifyStrict
models VerifyingKey::verify_strict. -/
structure Scheme where
  Sig : Type
  derivePub : Nat → List Nat
  trySign : Nat → Json → Sig
  validKey : List Nat → Bool
  verifyStrict : List Nat → Json → Sig → Bool

/-- Correctness facts of the real ed25519 primitives that the round-trip
claims rely on: a derived public key always re-parses, and a strict
verification of a genuine signature over the same bytes with the matching
public key succeeds. -/
def Scheme.Correct (S : Scheme) : Prop :=
  (∀ sk, S.validKey (S.derivePub sk) = true) ∧
  (∀ sk msg, S.verifyStrict (S.derivePub sk) msg (S.trySign sk msg) = true)

/-- A degenerate but Correct scheme, used to instantiate theorems at
concrete inputs. -/
def trivialScheme : Scheme where
  Sig := List Nat
  derivePub := fun sk => [sk % 256]
  trySign := fun sk _ => [sk % 256]
  validKey := fun _ => true
  verifyStrict := fun pk _ sig => sig == pk

/-- Signee from src/types.rs lines 40-47: nonce, payload, timestamp,
user, in that declaration order (which serde also uses as emission
order). nonce is a u32 and timestamp a u64; both are Nats here, with the
32-bit reduction applied where the code draws the nonce. -/
structure Signee (T : Type) where
  nonce : Nat
  payload : T
  timestamp : Nat
  user : UserKey

/-- WithSig from src/types.rs lines 32-38: a signature over the signee. -/
structure WithSig (T : Type) (Sig : Type) where
  sig : Sig
  signee : Signee T

/-- Serde serialization of UserKey (src/types.rs line 22, serde with
hex::serde and transparent): the hex string of the bytes. -/
def UserKey.toJson (k : UserKey) : Json := .str (hexEncode k.bytes)

/-- Serde serialization of a Signee (src/types.rs lines 40-47): fields
in declaration order nonce, payload, timestamp, user, given a payload
serializer. This is the value serde_json::to_vec canonically encodes. -/
def Signee.toJson (payloadToJson : T → Json) (s : Signee T) : Json :=
  .obj [("nonce", .num s.nonce), ("payload", payloadToJson s.payload),
        ("timestamp", .num s.timestamp), ("user", s.user.toJson)]

/-- WithSig::sign from src/types.rs lines 57-67: draw a fresh nonce,
read the clock (injected here as now), derive the signer identity from
the key, canonically encode the signee, sign those bytes. The Result
wrapper mirrors the Rust signature; in this model serialization and
signing are total, so the result is always ok. -/
def WithSig.sign (S : Scheme) (payloadToJson : T → Json) (key : Nat) (rng : Rng)
    (now : Nat) (payload : T) : Except String (WithSig T S.Sig) × Rng :=
  let drawn := rng.next_u32
  let signee : Signee T :=
    { nonce := drawn.1, payload := payload, timestamp := now,
      user := ⟨S.derivePub key⟩ }
  let canonical := Signee.toJson payloadToJson signee
  (.ok { sig := S.trySign key canonical, signee := signee }, drawn.2)

/-- Error outcomes of WithSig::verify, by source: the ensure! on the
timestamp (error string invalid timestamp), VerifyingKey::from_bytes
failing on the embedded key bytes, and verify_strict rejecting. -/
inductive VerifyError where
  | timestampOutOfRange
  | invalidIdentity
  | invalidSignature
deriving DecidableEq

/-- The u64 abs_diff of the Rust timestamp check. -/
def absDiff (a b : Nat) : Nat := if a ≤ b then b - a else a - b

/-- WithSig::verify from src/types.rs lines 69-79: first ensure the
timestamp is within TIMESTAMP_TOLERENCE of the clock (else fail, without
consulting the signature), then re-encode the signee canonically, parse
the embedded public key, and verify the signature strictly. -/
def WithSig.verify (S : Scheme) (payloadToJson : T → Json) (now : Nat)
    (w : WithSig T S.Sig) : Except VerifyError Unit :=
  if absDiff w.signee.timestamp now < TIMESTAMP_TOLERENCE then
    let canonical := Signee.toJson payloadToJson w.signee
    if S.validKey w.signee.user.bytes then
      if S.verifyStrict w.signee.user.bytes canonical w.sig then .ok ()
      else .error .invalidSignature
    else .error .invalidIdentity
  else .error .timestampOutOfRange

/-- ChatPayload from src/types.rs lines 83-88: room identifier and text.
The room is a Uuid; its serde form is a string, and its internal format
is irrelevant to the claims, so it is carried as a string. -/
structure ChatPayload where
  room : String
  text : String

/-- Serde serialization of ChatPayload (src/types.rs lines 83-88,
internally tagged with tag typ and rename chat): serde emits the tag
field first, then the declared fields room and text in order. -/
def ChatPayload.toJson (p : ChatPayload) : Json :=
  .obj [("typ", .str "chat"), ("room", .str p.room), ("text", .str p.text)]

/-- Value of one hex digit character; the hex crate decoder accepts both
lowercase and uppercase digits. -/
def hexDigitVal (c : Char) : Option Nat :=
  if '0' ≤ c ∧ c ≤ '9' then some (c.toNat - '0'.toNat)
  else if 'a' ≤ c ∧ c ≤ 'f' then some (c.toNat - 'a'.toNat + 10)
  else if 'A' ≤ c ∧ c ≤ 'F' then some (c.toNat - 'A'.toNat + 10)
  else none

/-- Model of hex decoding of a character list: consumes two digits per
byte, fails on a stray digit or a non-digit. -/
def hexDecodeChars : List Char → Option (List Nat)
  | [] => some []
  | [_] => none
  | c1 :: c2 :: rest =>
    match hexDigitVal c1, hexDigitVal c2, hexDecodeChars rest with
    | some hi, some lo, some bs => some ((16 * hi + lo) :: bs)
    | _, _, _ => none

/-- Model of hex::serde deserialization of a string. -/
def hexDecode (s : String) : Option (List Nat) := hexDecodeChars s.toList

/-- Field lookup in a serde map, first occurrence. -/
def lookupField (kvs : List (String × Json)) (k : String) : Option Json :=
  (kvs.find? (fun kv => kv.1 == k)).map Prod.snd

/-- Model of ed25519_dalek VerifyingKey, parameterized by the point
validation predicate validKey (the internal curve-point check of
from_bytes, external to this repository): the key retains exactly the
compressed bytes it was parsed from. -/
structure VKey where
  bytes : List Nat

/-- VerifyingKey::from_bytes: succeeds exactly when the bytes validate,
keeping the bytes. -/
def VKey.from_bytes (validKey : List Nat → Bool) (b : List Nat) : Except String VKey :=
  if validKey b then .ok ⟨b⟩ else .error "invalid pubkey"

/-- VerifyingKey::to_bytes: the compressed bytes, unchanged. -/
def VKey.to_bytes (k : VKey) : List Nat := k.bytes

/-- FromSql for UserKey from src/types.rs lines 195-202: read a 32-byte
blob (rusqlite rejects other sizes), parse it as a verifying key (failing
with the invalid pubkey error otherwise), and wrap the key bytes. -/
def UserKey.column_result (validKey : List Nat → Bool) (value : List Nat) :
    Except String UserKey :=
  if value.length = 32 then
    match VKey.from_bytes validKey value with
    | .ok k => .ok ⟨k.to_bytes⟩
    | .error e => .error e
  else .error "invalid blob size"

/-- Serde deserialization of UserKey (transparent, hex::serde): a hex
string decoding to exactly 32 bytes. -/
def UserKey.deserialize (j : Json) : Except String UserKey :=
  match j with
  | .str s =>
    match hexDecode s with
    | some bs => if bs.length = 32 then .ok ⟨bs⟩ else .error "invalid length"
    | none => .error "invalid hex"
  | _ => .error "expected hex string"

/-- The declared fields of Signee, in declaration order. -/
def signeeFields : List String := ["nonce", "payload", "timestamp", "user"]

/-- Serde deserialization of Signee (src/types.rs lines 40-47, with
deny_unknown_fields): any field outside the declared four is rejected,
duplicates are rejected, all four must be present with well-typed
values. -/
def Signee.deserialize (payloadDe : Json → Except String T) (j : Json) :
    Except String (Signee T) :=
  match j with
  | .obj kvs =>
    if (kvs.map Prod.fst).all (fun k => signeeFields.contains k) then
      if (kvs.map Prod.fst).Nodup then
        match lookupField kvs "nonce", lookupField kvs "payload",
            lookupField kvs "timestamp", lookupField kvs "user" with
        | some (.num n), some pj, some (.num t), some uj =>
          if n < 2 ^ 32 then
            if t < 2 ^ 64 then
              match payloadDe pj, UserKey.deserialize uj with
              | .ok p, .ok u => .ok ⟨n, p, t, u⟩
              | .error e, _ => .error e
              | _, .error e => .error e
            else .error "invalid timestamp value"
          else .error "invalid nonce value"
        | _, _, _, _ => .error "missing or ill-typed field"
      else .error "duplicate field"
    else .error "unknown field"
  | _ => .error "expected object"

/-- The declared fields of WithSig, in declaration order. -/
def withSigFields : List String := ["sig", "signee"]

/-- Serde deserialization of the sig field (hex::serde over a 64-byte
signature). -/
def sigBytesDeserialize (j : Json) : Except String (List Nat) :=
  match j with
  | .str s =>
    match hexDecode s with
    | some bs => if bs.length = 64 then .ok bs else .error "invalid length"
    | none => .error "invalid hex"
  | _ => .error "expected hex string"

/-- Serde deserialization of WithSig (src/types.rs lines 32-38, with
deny_unknown_fields): any field outside sig and signee is rejected,
duplicates are rejected, both fields must be present. The wire signature
is 64 raw bytes. -/
def WithSig.deserialize (payloadDe : Json → Except String T) (j : Json) :
    Except String (WithSig T (List Nat)) :=
  match j with
  | .obj kvs =>
    if (kvs.map Prod.fst).all (fun k => withSigFields.contains k) then
      if (kvs.map Prod.fst).Nodup then
        match lookupField kvs "sig", lookupField kvs "signee" with
        | some sj, some snj =>
          match sigBytesDeserialize sj, Signee.deserialize payloadDe snj with
          | .ok sb, .ok sn => .ok ⟨sb, sn⟩
          | .error e, _ => .error e
          | _, .error e => .error e
        | _, _ => .error "missing field"
      else .error "duplicate field"
    else .error "unknown field"
  | _ => .error "expected object"

/-- Serde deserialization of ChatPayload (src/types.rs lines 83-88,
internally tagged, no deny_unknown_fields per the FIXME on line 82):
dispatches on the typ tag and reads room and text; unknown extra fields
are ignored, not rejected. Uuid format validation is external to this
repository and elided: the room is kept as its string form. -/
def ChatPayload.deserialize (j : Json) : Except String ChatPayload :=
  match j with
  | .obj kvs =>
    match lookupField kvs "typ", lookupField kvs "room", lookupField kvs "text" with
    | some (.str tag), some (.str r), some (.str t) =>
      if tag = "chat" then .ok ⟨r, t⟩ else .error "unknown variant"
    | _, _, _ => .error "missing or ill-typed field"
  | _ => .error "expected object"

/-- Executable strict lexicographic order on strings by character code
point, used to state the ascending-field-name canonicalization property
(RFC8785 ordering restricted to the ASCII names that occur here). -/
def strLtB (a b : String) : Bool :=
  bytesLt (a.toList.map Char.toNat) (b.toList.map Char.toNat)

/-!
Helper lemmas, followed by one theorem per claim.
-/

/-- Core round-trip lemma for the two's-complement reinterpretation. -/
theorem i64AsBits_bitsAsI64 (b : Nat) (hb : b < 2 ^ 64) : i64AsBits (bitsAsI64 b) = b := by
  unfold i64AsBits bitsAsI64
  split
  · rw [Int.emod_eq_of_lt (by positivity) (by exact_mod_cast hb)]
    exact Int.toNat_natCast b
  · have h1 : ((b : Int) - 2 ^ 64) % 2 ^ 64 = (b : Int) % 2 ^ 64 := by
      omega
    rw [h1, Int.emod_eq_of_lt (by positivity) (by exact_mod_cast hb)]
    exact Int.toNat_natCast b

/-- Transitivity of the byte-string comparison. -/
theorem bytesLt_trans :
    ∀ x y z : List Nat, bytesLt x y = true → bytesLt y z = true → bytesLt x z = true := by
  intro x
  induction x with
  | nil =>
    intro y z h1 h2
    cases y with
    | nil => simp [bytesLt] at h1
    | cons b bs =>
      cases z with
      | nil => simp [bytesLt] at h2
      | cons c cs => simp [bytesLt]
  | cons a as ih =>
    intro y z h1 h2
    cases y with
    | nil => simp [bytesLt] at h1
    | cons b bs =>
      cases z with
      | nil => simp [bytesLt] at h2
      | cons c cs =>
        simp only [bytesLt, Bool.or_eq_true, Bool.and_eq_true, beq_iff_eq,
          decide_eq_true_eq] at h1 h2 ⊢
        rcases h1 with h1 | ⟨hab, h1⟩
        · rcases h2 with h2 | ⟨hbc, _⟩
          · exact Or.inl (Nat.lt_trans h1 h2)
          · exact Or.inl (hbc ▸ h1)
        · rcases h2 with h2 | ⟨hbc, h2⟩
          · exact Or.inl (hab ▸ h2)
          · exact Or.inr ⟨hab.trans hbc, ih bs cs h1 h2⟩

/-- Irreflexivity of the byte-string comparison. -/
theorem bytesLt_irrefl : ∀ x : List Nat, bytesLt x x = false := by
  intro x
  induction x with
  | nil => rfl
  | cons a as ih => simp [bytesLt, ih]

/-- The adjacent-pair scan is equivalent to global strict increase. -/
theorem sortedStrict_iff_pairwise (ms : List RoomMember) :
    sortedStrict ms = true ↔
      ms.Pairwise (fun a b => bytesLt a.user.bytes b.user.bytes = true) := by
  induction ms with
  | nil => simp [sortedStrict]
  | cons a rest ih =>
    cases rest with
    | nil => simp [sortedStrict]
    | cons b rest2 =>
      rw [List.pairwise_cons]
      constructor
      · intro h
        simp only [sortedStrict, Bool.and_eq_true] at h
        have hpair := (ih.mp h.2)
        refine ⟨?_, hpair⟩
        intro x hx
        rcases List.mem_cons.mp hx with rfl | hx2
        · exact h.1
        · have hb : bytesLt b.user.bytes x.user.bytes = true :=
            (List.pairwise_cons.mp hpair).1 x hx2
          exact bytesLt_trans _ _ _ h.1 hb
      · intro ⟨hall, hpair⟩
        simp only [sortedStrict, Bool.and_eq_true]
        exact ⟨hall b (List.mem_cons_self b rest2), ih.mpr hpair⟩

/-- The trivial scheme satisfies the correctness facts. -/
theorem trivialScheme_correct : trivialScheme.Correct :=
  ⟨fun _ => rfl, fun _ _ => by simp [trivialScheme]⟩

/-- Unfolding equation for sign: the produced envelope and advanced rng. -/
theorem sign_eq_pair {T : Type} (S : Scheme) (pj : T → Json) (key : Nat) (rng : Rng)
    (now : Nat) (p : T) :
    WithSig.sign S pj key rng now p =
      (.ok { sig := S.trySign key (Signee.toJson pj
               { nonce := (rng.next_u32).1, payload := p, timestamp := now,
                 user := ⟨S.derivePub key⟩ }),
             signee := { nonce := (rng.next_u32).1, payload := p, timestamp := now,
                         user := ⟨S.derivePub key⟩ } },
       (rng.next_u32).2) := rfl

/-- Evaluation of verify on a genuinely signed envelope, for any correct
scheme: only the timestamp window decides the outcome. -/
theorem verify_sign_eval {T : Type} (S : Scheme) (hS : S.Correct) (pj : T → Json)
    (key n tsig now : Nat) (p : T) :
    WithSig.verify S pj now
      { sig := S.trySign key (Signee.toJson pj
          { nonce := n, payload := p, timestamp := tsig, user := ⟨S.derivePub key⟩ }),
        signee := { nonce := n, payload := p, timestamp := tsig,
                    user := ⟨S.derivePub key⟩ } } =
      (if absDiff tsig now < TIMESTAMP_TOLERENCE then .ok () else .error .timestampOutOfRange) := by
  unfold WithSig.verify
  by_cases hc : absDiff tsig now < TIMESTAMP_TOLERENCE
  · simp only [hc, if_pos, if_true]
    simp [hS.1 key, hS.2 key]
  · simp [hc]

/-- Length of the hex encoding: two characters per byte. -/
theorem hexEncode_length (bs : List Nat) : (hexEncode bs).length = 2 * bs.length := by
  show (bs.flatMap hexByte).length = 2 * bs.length
  induction bs with
  | nil => rfl
  | cons b rest ih =>
    simp only [List.flatMap_cons, List.length_append, ih, hexByte, List.length_cons,
      List.length_nil, List.length_cons]
    omega

/-- Every character the hex encoder emits is a lowercase hex digit. -/
theorem hexDigitChar_mem (n : Nat) : hexDigitChar n ∈ hexAlphabet := by
  unfold hexDigitChar
  by_cases h : n < hexAlphabet.length
  · rw [List.getD_eq_getElem _ _ h]
    exact List.getElem_mem h
  · rw [List.getD_eq_default _ _ (Nat.le_of_not_lt h)]
    decide

/-- Characters of a hex encoding all come from the lowercase alphabet. -/
theorem mem_hexEncode (c : Char) (bs : List Nat) (hc : c ∈ (hexEncode bs).toList) :
    c ∈ hexAlphabet := by
  have hc2 : c ∈ bs.flatMap hexByte := hc
  rw [List.mem_flatMap] at hc2
  obtain ⟨b, -, hcb⟩ := hc2
  simp only [hexByte, List.mem_cons, List.not_mem_nil, or_false] at hcb
  rcases hcb with rfl | rfl <;> exact hexDigitChar_mem _

/-- C1: for every payload and signing key, verifying the envelope
produced by sign succeeds when verification happens at the same clock
reading, assuming the correctness facts of the ed25519 primitives. -/
theorem sign_verify_roundtrip {T : Type} (S : Scheme) (hS : S.Correct)
    (pj : T → Json) (key : Nat) (rng : Rng) (now : Nat) (p : T)
    (env : WithSig T S.Sig) (rng' : Rng)
    (h : WithSig.sign S pj key rng now p = (.ok env, rng')) :
    WithSig.verify S pj now env = .ok () := by
  rw [sign_eq_pair, Prod.mk.injEq] at h
  obtain ⟨h1, -⟩ := h
  rw [Except.ok.injEq] at h1
  subst h1
  rw [verify_sign_eval S hS]
  simp [absDiff, TIMESTAMP_TOLERENCE]

/-- Witness for C1 at a concrete scheme, key, rng stream and clock. -/
theorem sign_verify_roundtrip_witness :
    WithSig.sign trivialScheme (fun _ : Unit => Json.num 0) 7 ⟨fun _ => 5, 0⟩ 1700000000 () =
      (.ok { sig := [7], signee := { nonce := 5, payload := (), timestamp := 1700000000,
                                     user := ⟨[7]⟩ } }, ⟨fun _ => 5, 1⟩) ∧
    WithSig.verify trivialScheme (fun _ : Unit => Json.num 0) 1700000000
      { sig := [7], signee := { nonce := 5, payload := (), timestamp := 1700000000,
                                user := ⟨[7]⟩ } } = .ok () := by
  refine ⟨rfl, ?_⟩
  exact sign_verify_roundtrip trivialScheme trivialScheme_correct _ 7 ⟨fun _ => 5, 0⟩
    1700000000 () _ _ rfl

/-- C2: verify performs the freshness check first and fails with the
timestamp error exactly when the absolute clock difference is not
strictly below 90 seconds, for every envelope whatever its signature;
and a genuinely signed envelope verifies at T+89 but fails with the
timestamp error at T+91 and at T-91. -/
theorem verify_freshness_window {T : Type} (S : Scheme) (hS : S.Correct)
    (pj : T → Json) (key : Nat) (rng : Rng) (tsig : Nat) (p : T)
    (env : WithSig T S.Sig) (rng' : Rng) (hT : 91 ≤ tsig)
    (hsign : WithSig.sign S pj key rng tsig p = (.ok env, rng')) :
    (∀ (now : Nat) (w : WithSig T S.Sig),
        WithSig.verify S pj now w = .error .timestampOutOfRange ↔
          ¬ absDiff w.signee.timestamp now < TIMESTAMP_TOLERENCE) ∧
    WithSig.verify S pj (tsig + 89) env = .ok () ∧
    WithSig.verify S pj (tsig + 91) env = .error .timestampOutOfRange ∧
    WithSig.verify S pj (tsig - 91) env = .error .timestampOutOfRange := by
  rw [sign_eq_pair, Prod.mk.injEq] at hsign
  obtain ⟨h1, -⟩ := hsign
  rw [Except.ok.injEq] at h1
  subst h1
  refine ⟨?_, ?_, ?_, ?_⟩
  · intro now w
    unfold WithSig.verify
    by_cases hc : absDiff w.signee.timestamp now < TIMESTAMP_TOLERENCE
    · simp only [if_pos hc]
      constructor
      · intro he
        exfalso
        split_ifs at he <;> simp at he
      · intro hn
        exact absurd hc hn
    · simp [if_neg hc, hc]
  · have h89 : absDiff tsig (tsig + 89) = 89 := by
      unfold absDiff
      split <;> omega
    rw [verify_sign_eval S hS, h89]
    simp [TIMESTAMP_TOLERENCE]
  · have h91 : absDiff tsig (tsig + 91) = 91 := by
      unfold absDiff
      split <;> omega
    rw [verify_sign_eval S hS, h91]
    simp [TIMESTAMP_TOLERENCE]
  · have h91 : absDiff tsig (tsig - 91) = 91 := by
      unfold absDiff
      split <;> omega
    rw [verify_sign_eval S hS, h91]
    simp [TIMESTAMP_TOLERENCE]

/-- Witness for C2 at a concrete scheme, signing time 1700000000, and the
three clock readings of the claim. -/
theorem verify_freshness_window_witness :
    WithSig.verify trivialScheme (fun _ : Unit => Json.num 0) (1700000000 + 89)
      { sig := [7], signee := { nonce := 5, payload := (), timestamp := 1700000000,
                                user := ⟨[7]⟩ } } = .ok () ∧
    WithSig.verify trivialScheme (fun _ : Unit => Json.num 0) (1700000000 + 91)
      { sig := [7], signee := { nonce := 5, payload := (), timestamp := 1700000000,
                                user := ⟨[7]⟩ } } = .error .timestampOutOfRange ∧
    WithSig.verify trivialScheme (fun _ : Unit => Json.num 0) (1700000000 - 91)
      { sig := [7], signee := { nonce := 5, payload := (), timestamp := 1700000000,
                                user := ⟨[7]⟩ } } = .error .timestampOutOfRange := by
  have h := verify_freshness_window trivialScheme trivialScheme_correct
    (fun _ : Unit => Json.num 0) 7 ⟨fun _ => 5, 0⟩ 1700000000 ()
    { sig := [7], signee := { nonce := 5, payload := (), timestamp := 1700000000,
                              user := ⟨[7]⟩ } } ⟨fun _ => 5, 1⟩ (by omega) rfl
  exact ⟨h.2.1, h.2.2.1, h.2.2.2⟩

/-- C5: sign builds a signee from the next value of the random source,
the payload unchanged, the injected clock reading, and the identity
derived from the secret key, and signs the canonical encoding of that
signee. -/
theorem sign_components {T : Type} (S : Scheme) (pj : T → Json) (key : Nat) (rng : Rng)
    (now : Nat) (p : T) (env : WithSig T S.Sig) (rng' : Rng)
    (h : WithSig.sign S pj key rng now p = (.ok env, rng')) :
    env.signee.nonce = (rng.next_u32).1 ∧
    env.signee.payload = p ∧
    env.signee.timestamp = now ∧
    env.signee.user = ⟨S.derivePub key⟩ ∧
    env.sig = S.trySign key (Signee.toJson pj env.signee) ∧
    rng' = (rng.next_u32).2 := by
  rw [sign_eq_pair, Prod.mk.injEq] at h
  obtain ⟨h1, h2⟩ := h
  rw [Except.ok.injEq] at h1
  subst h1
  subst h2
  exact ⟨rfl, rfl, rfl, rfl, rfl, rfl⟩

/-- Witness for C5 at a concrete scheme, key, rng stream and clock. -/
theorem sign_components_witness :
    ({ sig := [7], signee := { nonce := 5, payload := (), timestamp := 1700000000,
                               user := ⟨[7]⟩ } } :
        WithSig Unit trivialScheme.Sig).signee.nonce = ((⟨fun _ => 5, 0⟩ : Rng).next_u32).1 ∧
    ({ sig := [7], signee := { nonce := 5, payload := (), timestamp := 1700000000,
                               user := ⟨[7]⟩ } } :
        WithSig Unit trivialScheme.Sig).signee.payload = () ∧
    ({ sig := [7], signee := { nonce := 5, payload := (), timestamp := 1700000000,
                               user := ⟨[7]⟩ } } :
        WithSig Unit trivialScheme.Sig).signee.timestamp = 1700000000 ∧
    ({ sig := [7], signee := { nonce := 5, payload := (), timestamp := 1700000000,
                               user := ⟨[7]⟩ } } :
        WithSig Unit trivialScheme.Sig).signee.user = ⟨trivialScheme.derivePub 7⟩ ∧
    ({ sig := [7], signee := { nonce := 5, payload := (), timestamp := 1700000000,
                               user := ⟨[7]⟩ } } :
        WithSig Unit trivialScheme.Sig).sig =
      trivialScheme.trySign 7 (Signee.toJson (fun _ : Unit => Json.num 0)
        ({ sig := [7], signee := { nonce := 5, payload := (), timestamp := 1700000000,
                                   user := ⟨[7]⟩ } } :
            WithSig Unit trivialScheme.Sig).signee) ∧
    (⟨fun _ => 5, 1⟩ : Rng) = ((⟨fun _ => 5, 0⟩ : Rng).next_u32).2 :=
  sign_components trivialScheme (fun _ : Unit => Json.num 0) 7 ⟨fun _ => 5, 0⟩
    1700000000 () _ _ rfl

/-- C3: roster construction succeeds exactly when the member sequence is
strictly increasing by identity byte order (so the empty and singleton
lists succeed, and strict increase rules out duplicate users); on
success the stored list is the input unchanged, and on failure the error
is the fixed string unsorted or duplicated users. -/
theorem roster_try_from_correct (ms : List RoomMember) :
    (RoomMemberList.try_from ms = .ok ⟨ms⟩ ↔
        ms.Pairwise (fun a b => bytesLt a.user.bytes b.user.bytes = true)) ∧
    (∀ r, RoomMemberList.try_from ms = .ok r → r.members = ms) ∧
    (¬ ms.Pairwise (fun a b => bytesLt a.user.bytes b.user.bytes = true) →
        RoomMemberList.try_from ms = .error "unsorted or duplicated users") ∧
    (ms.Pairwise (fun a b => bytesLt a.user.bytes b.user.bytes = true) →
        (ms.map fun m => m.user).Nodup) ∧
    RoomMemberList.try_from [] = .ok ⟨[]⟩ ∧
    (∀ m : RoomMember, RoomMemberList.try_from [m] = .ok ⟨[m]⟩) := by
  refine ⟨?_, ?_, ?_, ?_, rfl, fun m => rfl⟩
  · constructor
    · intro h
      by_cases hs : sortedStrict ms = true
      · exact (sortedStrict_iff_pairwise ms).mp hs
      · unfold RoomMemberList.try_from at h
        rw [if_neg hs] at h
        cases h
    · intro h
      unfold RoomMemberList.try_from
      rw [if_pos ((sortedStrict_iff_pairwise ms).mpr h)]
  · intro r h
    unfold RoomMemberList.try_from at h
    split_ifs at h
    rw [Except.ok.injEq] at h
    rw [h.symm]
  · intro hp
    unfold RoomMemberList.try_from
    rw [if_neg]
    intro hs
    exact hp ((sortedStrict_iff_pairwise ms).mp hs)
  · intro h
    have h2 : ms.Pairwise (fun a b => a.user ≠ b.user) := by
      refine List.Pairwise.imp ?_ h
      intro a b hab heq
      rw [heq] at hab
      rw [bytesLt_irrefl] at hab
      cases hab
    show (ms.map fun m => m.user).Pairwise (· ≠ ·)
    rw [List.pairwise_map]
    exact h2

/-- Witness for C3: a sorted two-member list is accepted unchanged, an
unsorted one and a duplicate one are rejected with the fixed error. -/
theorem roster_try_from_witness :
    RoomMemberList.try_from [⟨1, ⟨[0]⟩⟩, ⟨2, ⟨[1]⟩⟩] =
      .ok ⟨[⟨1, ⟨[0]⟩⟩, ⟨2, ⟨[1]⟩⟩]⟩ ∧
    RoomMemberList.try_from [⟨1, ⟨[1]⟩⟩, ⟨2, ⟨[0]⟩⟩] =
      .error "unsorted or duplicated users" ∧
    RoomMemberList.try_from [⟨1, ⟨[0]⟩⟩, ⟨2, ⟨[0]⟩⟩] =
      .error "unsorted or duplicated users" := by
  refine ⟨?_, ?_, ?_⟩
  · exact (roster_try_from_correct _).1.mpr (by decide)
  · exact (roster_try_from_correct _).2.2.1 (by decide)
  · exact (roster_try_from_correct _).2.2.1 (by decide)

/-- C4: for each of the three permission mask types, storing any 64-bit
pattern through the signed-column mapping and reading it back yields the
identical bit pattern. -/
theorem perm_sql_roundtrip (b : Nat) (hb : b < 2 ^ 64) :
    ServerPermission.column_result (ServerPermission.to_sql b) = b ∧
    MemberPermission.column_result (MemberPermission.to_sql b) = b ∧
    RoomAttrs.column_result (RoomAttrs.to_sql b) = b :=
  ⟨i64AsBits_bitsAsI64 b hb, i64AsBits_bitsAsI64 b hb, i64AsBits_bitsAsI64 b hb⟩

/-- Witness for C4 at the all-bits pattern. -/
theorem perm_sql_roundtrip_witness :
    2 ^ 64 - 1 < 2 ^ 64 ∧
    ServerPermission.column_result (ServerPermission.to_sql (2 ^ 64 - 1)) = 2 ^ 64 - 1 ∧
    MemberPermission.column_result (MemberPermission.to_sql (2 ^ 64 - 1)) = 2 ^ 64 - 1 ∧
    RoomAttrs.column_result (RoomAttrs.to_sql (2 ^ 64 - 1)) = 2 ^ 64 - 1 :=
  ⟨by norm_num, perm_sql_roundtrip (2 ^ 64 - 1) (by norm_num)⟩

/-- C6: the canonical serialization of a Signee carrying a chat payload
emits the fields in ascending name order nonce, payload, timestamp, user
(the signer field last), and within the payload sub-object the
discriminant tag typ comes first, followed by room and text. -/
theorem signee_canonical_field_order (s : Signee ChatPayload) :
    (Signee.toJson ChatPayload.toJson s).keys = ["nonce", "payload", "timestamp", "user"] ∧
    List.Chain' (fun a b : String => strLtB a b = true)
      ["nonce", "payload", "timestamp", "user"] ∧
    (ChatPayload.toJson s.payload).keys = ["typ", "room", "text"] ∧
    ((ChatPayload.toJson s.payload).keys.head? = some "typ") := by
  refine ⟨rfl, ?_, rfl, rfl⟩
  simp only [List.chain'_cons, List.chain'_singleton, and_true]
  refine ⟨?_, ?_, ?_⟩ <;> decide

/-- Counterexample for C7 as stated: the RoomAttrs bitflags declaration
introduces no named constant ALL at all. -/
theorem roomAttrs_has_no_all_name :
    "ALL" ∉ RoomAttrs.namedConsts.map Prod.fst := by
  decide

/-- C7 amended: ServerPermission and MemberPermission each define a named
ALL constant equal to the mask with all 64 bits set; RoomAttrs defines no
named ALL constant, and instead declares an unnamed constant covering all
64 bits, so every bit is a known bit of the type. -/
theorem all_const_per_variant :
    ("ALL", 2 ^ 64 - 1) ∈ ServerPermission.namedConsts ∧
    ("ALL", 2 ^ 64 - 1) ∈ MemberPermission.namedConsts ∧
    (∀ kv ∈ RoomAttrs.namedConsts, kv.1 ≠ "ALL") ∧
    RoomAttrs.unnamedConstBits = 2 ^ 64 - 1 := by
  refine ⟨by decide, by decide, ?_, rfl⟩
  intro kv hkv
  rw [RoomAttrs.namedConsts, List.mem_singleton] at hkv
  rw [hkv]
  decide

/-- Characterization of the identity column decoder on 32-byte blobs. -/
theorem userkey_column_result_eq (validKey : List Nat → Bool) (value : List Nat)
    (hlen : value.length = 32) :
    UserKey.column_result validKey value =
      (if validKey value then .ok ⟨value⟩ else .error "invalid pubkey") := by
  unfold UserKey.column_result VKey.from_bytes VKey.to_bytes
  rw [if_pos hlen]
  by_cases hv : validKey value = true <;> simp [hv]

/-- C8: decoding an identity from its 32-byte storage column succeeds
exactly when the bytes validate as a public key, the decoded bytes equal
the stored bytes, and otherwise the invalid pubkey error is returned. -/
theorem userkey_column_result_correct (validKey : List Nat → Bool) (value : List Nat)
    (hlen : value.length = 32) :
    ((∃ k, UserKey.column_result validKey value = .ok k) ↔ validKey value = true) ∧
    (∀ k, UserKey.column_result validKey value = .ok k → k.bytes = value) ∧
    (validKey value = false →
        UserKey.column_result validKey value = .error "invalid pubkey") := by
  rw [userkey_column_result_eq validKey value hlen]
  by_cases hv : validKey value = true
  · refine ⟨⟨fun _ => hv, fun _ => ⟨⟨value⟩, by simp [hv]⟩⟩, ?_, ?_⟩
    · intro k hk
      rw [if_pos hv, Except.ok.injEq] at hk
      rw [← hk]
    · intro hv2
      rw [hv] at hv2
      cases hv2
  · refine ⟨⟨?_, fun h => absurd h hv⟩, ?_, ?_⟩
    · intro ⟨k, hk⟩
      rw [if_neg hv] at hk
      cases hk
    · intro k hk
      rw [if_neg hv] at hk
      cases hk
    · intro _
      rw [if_neg hv]

/-- Witness for C8 at a concrete validation predicate and blob. -/
theorem userkey_column_result_witness :
    (List.replicate 32 0).length = 32 ∧
    (∃ k, UserKey.column_result (fun bs => bs.headD 1 == 0) (List.replicate 32 0) =
      .ok k) := by
  have h := userkey_column_result_correct (fun bs => bs.headD 1 == 0)
    (List.replicate 32 0) rfl
  exact ⟨rfl, h.1.mpr rfl⟩

/-- C9: an identity displays as the lowercase hex encoding of its bytes,
64 characters for the 32 key bytes, and identity equality is byte
equality. -/
theorem userkey_display_correct (k : UserKey) (hlen : k.bytes.length = 32) :
    k.display = hexEncode k.bytes ∧
    k.display.length = 64 ∧
    (∀ c ∈ k.display.toList, c ∈ hexAlphabet) ∧
    (∀ k1 k2 : UserKey, k1 = k2 ↔ k1.bytes = k2.bytes) := by
  refine ⟨rfl, ?_, ?_, ?_⟩
  · show (hexEncode k.bytes).length = 64
    rw [hexEncode_length, hlen]
  · intro c hc
    exact mem_hexEncode c k.bytes hc
  · intro k1 k2
    constructor
    · intro h
      rw [h]
    · intro h
      cases k1
      cases k2
      exact congrArg UserKey.mk h

/-- Witness for C9 at the all-zero key. -/
theorem userkey_display_witness :
    (⟨List.replicate 32 0⟩ : UserKey).bytes.length = 32 ∧
    UserKey.display ⟨List.replicate 32 0⟩ = hexEncode (List.replicate 32 0) ∧
    (UserKey.display ⟨List.replicate 32 0⟩).length = 64 := by
  have h := userkey_display_correct ⟨List.replicate 32 0⟩ rfl
  exact ⟨rfl, h.1, h.2.1⟩

/-- C10: deserializing an envelope or a signee from an object holding
any field beyond the declared ones fails (the unknown-field rejection of
the two strict levels), while the chat payload deserializer, which
cannot enforce this, accepts an object with an extra field. -/
theorem strict_deserialize_rejects_unknown {T : Type}
    (payloadDe : Json → Except String T) (kvs : List (String × Json)) (k : String)
    (hk : k ∈ kvs.map Prod.fst) :
    (k ∉ withSigFields → WithSig.deserialize payloadDe (.obj kvs) =
        .error "unknown field") ∧
    (k ∉ signeeFields → Signee.deserialize payloadDe (.obj kvs) =
        .error "unknown field") ∧
    ChatPayload.deserialize
      (.obj [("typ", .str "chat"), ("room", .str "r"), ("text", .str "t"),
             ("extra", .num 0)]) = .ok ⟨"r", "t"⟩ := by
  have hall : ∀ fields : List String, k ∉ fields →
      ((kvs.map Prod.fst).all fun k2 => fields.contains k2) = false := by
    intro fields hneg
    rw [Bool.eq_false_iff]
    intro hall2
    rw [List.all_eq_true] at hall2
    have hc := hall2 k hk
    simp at hc
    exact hneg hc
  refine ⟨?_, ?_, rfl⟩
  · intro hneg
    unfold WithSig.deserialize
    simp [hall withSigFields hneg]
    intro hmem
    exfalso
    obtain ⟨⟨k1, v⟩, hkv, hfst⟩ := List.mem_map.mp hk
    cases hfst
    exact hneg (hmem k1 v hkv)
  · intro hneg
    unfold Signee.deserialize
    simp [hall signeeFields hneg]
    intro hmem
    exfalso
    obtain ⟨⟨k1, v⟩, hkv, hfst⟩ := List.mem_map.mp hk
    cases hfst
    exact hneg (hmem k1 v hkv)

/-- Witness for C10 at a single-field object carrying an undeclared
field. -/
theorem strict_deserialize_rejects_unknown_witness :
    "bogus" ∈ ([("bogus", Json.num 0)].map Prod.fst) ∧
    WithSig.deserialize (fun _ => Except.ok ()) (.obj [("bogus", Json.num 0)]) =
      .error "unknown field" ∧
    Signee.deserialize (fun _ => Except.ok ()) (.obj [("bogus", Json.num 0)]) =
      .error "unknown field" := by
  have h := strict_deserialize_rejects_unknown (fun _ => Except.ok ())
    [("bogus", Json.num 0)] "bogus" (List.mem_singleton.mpr rfl)
  exact ⟨List.mem_singleton.mpr rfl, h.1 (by decide), h.2.1 (by decide)⟩

end Blahrs
